import Mathlib

/-!
Verification development for the `filestorage` repository: a shallow
embedding of the storage engine (`crates/filestorage-core/src/lib.rs`)
and the HTTP facade (`crates/filestorage/src/main.rs`), together with
theorems settling the specification claims.

Conventions of the embedding:
- Byte sequences are `List Nat`.
- A filesystem path relative to the storage root is a `List String`
  of path segments.
- The Unix path semantics of Rust's `std::path` is embedded for
  relative paths: `Path::is_absolute` is true exactly when the string
  starts with a slash, and `Path::components` splits on slashes,
  drops empty segments and interior current-directory segments, and
  keeps a leading current-directory segment, parent references and
  normal names.
- The filesystem state is a finite map from paths to file contents
  plus the set of directories that exist; `tokio::fs` operations are
  embedded as pure state transformers returning `Except`.
- Deterministic path-shape behavior of the OS is part of the model:
  keys whose raw string ends in a separator or a `.` segment resolve
  with a directory requirement on the final component, a directory at
  the resolved path or a file on the parent chain is an I/O error.
  Environment-dependent failures (permissions, disk space,
  name-length limits, byte encoding of names at the syscall boundary)
  are outside the model.
-/

deriving instance DecidableEq for Except

namespace FileStorageSpec

/-- Byte sequences, each byte a natural number (value irrelevant to the claims). -/
abbrev Bytes := List Nat

/-- A filesystem path relative to the storage root: the list of its segments. -/
abbrev FsPath := List String

/-- The error enum `StorageError` of `filestorage-core/src/lib.rs`:
`InvalidKey(String)`, `NotFound(String)`, `Io(std::io::Error)`; the
`Io` payload is embedded as its display string. -/
inductive StorageError where
  | InvalidKey (msg : String)
  | NotFound (key : String)
  | Io (detail : String)
deriving DecidableEq, Repr

/-- One component of a relative Unix path, as produced by
`std::path::Path::components`: a current-directory reference `.`,
a parent reference `..`, or a normal name. -/
inductive PathComponent where
  | curDir
  | parentDir
  | normal (s : String)
deriving DecidableEq, Repr

/-- Split a character list on the slash character into raw segments.
This embeds the segmentation a Unix path string undergoes; the
accumulator holds the current segment reversed. -/
def splitSlash (acc : List Char) : List Char → List String
  | [] => [String.mk acc.reverse]
  | c :: cs =>
    if c = '/' then String.mk acc.reverse :: splitSlash [] cs
    else splitSlash (c :: acc) cs

/-- The raw slash-separated segments of a key string. -/
def rawSegs (key : String) : List String :=
  splitSlash [] key.data

/-- Classify one raw segment the way `Path::components` does on a
relative Unix path: empty segments (doubled or trailing separators)
and interior `.` segments are dropped, `..` is a parent reference,
anything else is a normal name. -/
def classify (s : String) : Option PathComponent :=
  if s = "" then none
  else if s = "." then none
  else if s = ".." then some .parentDir
  else some (.normal s)

/-- `Path::components` of a relative Unix path string: classify each
raw segment, and keep a leading `.` segment (Rust keeps `.` only at
the beginning of the path). -/
def componentsOf (key : String) : List PathComponent :=
  let segs := rawSegs key
  let body := segs.filterMap classify
  if segs.head? = some "." then .curDir :: body else body

/-- `Path::is_absolute` on Unix: the path string starts with a slash. -/
def isAbsolute (key : String) : Bool :=
  key.data.head? = some '/'

/-- Whether a path component is `Component::Normal`. -/
def isNormal : PathComponent → Bool
  | .normal _ => true
  | _ => false

/-- The segment carried by a normal component. -/
def normalName : PathComponent → Option String
  | .normal s => some s
  | _ => none

/-- `validate_key` of `filestorage-core/src/lib.rs`: reject the empty
key, then absolute paths, then any component that is not
`Component::Normal`; the reason strings interpolate the key exactly
as the `format!` calls in the source do. -/
def validate_key (key : String) : Except StorageError Unit :=
  if key = "" then
    .error (.InvalidKey "key cannot be empty")
  else if isAbsolute key then
    .error (.InvalidKey ("absolute paths are not allowed (got `" ++ key ++ "`)"))
  else if (componentsOf key).all isNormal then
    .ok ()
  else
    .error (.InvalidKey ("`" ++ key ++ "` contains unsupported segments"))

/-- The normal segments of a key: the resolved path relative to the
root. For a valid key these are exactly its components, and the OS
resolves `root.join(key)` to the root plus these segments. -/
def segsOf (key : String) : FsPath :=
  (componentsOf key).filterMap normalName

/-- `FileStorage::path_for`: validate the key, then resolve it under
the root; the result is given relative to the root. -/
def path_for (key : String) : Except StorageError FsPath :=
  match validate_key key with
  | .error e => .error e
  | .ok _ => .ok (segsOf key)

/-- The absolute resolved path of a valid key: `self.root.join(key)`,
with the root itself given as its segment list. -/
def resolvePath (root : FsPath) (key : String) : FsPath :=
  root ++ segsOf key

/-- Whether the raw key string ends in a path separator or in a
current-directory segment (`a/`, `a//`, `a/.`, `a/./`). Validation
accepts such keys, since their normalized components are all `Normal`,
but the operating system resolves the raw `root.join(key)` string with
a directory requirement on its final component: `open` with `O_CREAT`
on such a path fails deterministically on Linux (`EISDIR` for a
trailing separator, `ENOENT` for a trailing `.` over a missing entry,
`ENOTDIR`/`EISDIR` over an existing one), and reading or unlinking an
existing regular file through it fails `ENOTDIR`, while a missing
entry still reports `ENOENT`. -/
def hasDirTail (key : String) : Bool :=
  match (rawSegs key).getLast? with
  | some "" => true
  | some "." => true
  | _ => false

/-- Look up the contents of the file stored at a path, if any. -/
def lookupFile : List (FsPath × Bytes) → FsPath → Option Bytes
  | [], _ => none
  | e :: rest, p => if e.1 = p then some e.2 else lookupFile rest p

/-- Remove every binding of a path from the file map. -/
def eraseFile : List (FsPath × Bytes) → FsPath → List (FsPath × Bytes)
  | [], _ => []
  | e :: rest, p => if e.1 = p then eraseFile rest p else e :: eraseFile rest p

/-- Bind a path to file contents, replacing any existing binding. -/
def insertFile (l : List (FsPath × Bytes)) (p : FsPath) (d : Bytes) :
    List (FsPath × Bytes) :=
  (p, d) :: eraseFile l p

/-- All prefixes of a path, from the empty path up to the path itself. -/
def prefixesOf : FsPath → List FsPath
  | [] => [[]]
  | s :: rest => [] :: (prefixesOf rest).map (s :: ·)

/-- The filesystem state under the storage root: the files that exist
(path to contents) and the directories that have been created. The
root itself always exists (`FileStorage::new` runs `create_dir_all`). -/
structure FS where
  files : List (FsPath × Bytes)
  dirs : List FsPath
deriving DecidableEq, Repr

/-- A freshly initialized storage root: no files, no subdirectories. -/
def FS.init : FS := ⟨[], []⟩

/-- Whether a path is an existing directory: the root always is, other
paths when they have been created. -/
def isDir (fs : FS) (p : FsPath) : Bool :=
  p = [] || fs.dirs.any (· = p)

/-- Whether some prefix of the parent chain of a path exists as a
file, which makes the OS fail with `NotADirectory` when traversing. -/
def blockedByFile (fs : FS) (p : FsPath) : Bool :=
  (prefixesOf p.dropLast).any (fun q => (lookupFile fs.files q).isSome)

/-- `tokio::fs::create_dir_all`: creates the directory and every
missing ancestor; fails with an I/O error when a path on the chain
exists as a file, and is a no-op on directories that already exist. -/
def create_dir_all (fs : FS) (p : FsPath) : Except StorageError FS :=
  if (prefixesOf p).any (fun q => (lookupFile fs.files q).isSome) then
    .error (.Io "cannot create directory")
  else
    .ok { fs with dirs := prefixesOf p ++ fs.dirs }

/-- `FileStorage::put`: resolve the key, `create_dir_all` on the
parent (`Path::parent` pops the last normalized component, so the
parent is the resolved path minus its final segment, also for keys
with a trailing separator or `.` segment), then `fs::write` the data.
The write opens the raw `root.join(key)` path with `O_CREAT`: a
dir-marked tail makes that open fail with an OS error whatever exists
at the path, writing over an existing directory fails, and otherwise
the file at the resolved path is created or overwritten. -/
def FileStorage.put (fs : FS) (key : String) (data : Bytes) :
    Except StorageError FS :=
  match path_for key with
  | .error e => .error e
  | .ok segs =>
    match create_dir_all fs segs.dropLast with
    | .error e => .error e
    | .ok fs1 =>
      if hasDirTail key then .error (.Io "cannot open path")
      else if isDir fs1 segs then .error (.Io "is a directory")
      else .ok { fs1 with files := insertFile fs1.files segs data }

/-- `FileStorage::get`: resolve the key and `fs::read` the file; the
OS `NotFound` error kind becomes `NotFound(key)`, any other read
failure stays an I/O error: a regular file reached through a
dir-marked tail (`ENOTDIR`), a directory at the path (`EISDIR` on
read), or a file on the parent chain (`ENOTDIR`); a missing entry is
`ENOENT` also for dir-marked tails. -/
def FileStorage.get (fs : FS) (key : String) : Except StorageError Bytes :=
  match path_for key with
  | .error e => .error e
  | .ok segs =>
    match lookupFile fs.files segs with
    | some d =>
      if hasDirTail key then .error (.Io "not a directory")
      else .ok d
    | none =>
      if isDir fs segs then .error (.Io "is a directory")
      else if blockedByFile fs segs then .error (.Io "not a directory")
      else .error (.NotFound key)

/-- `FileStorage::delete`: resolve the key and `fs::remove_file`; the
OS `NotFound` error kind becomes `NotFound(key)`, any other failure
stays an I/O error: unlinking a regular file through a dir-marked tail
(`ENOTDIR`), a directory at the path (`EISDIR`), or a file on the
parent chain (`ENOTDIR`); a missing entry is `ENOENT` also for
dir-marked tails. Ancestor directories are not pruned. -/
def FileStorage.delete (fs : FS) (key : String) : Except StorageError FS :=
  match path_for key with
  | .error e => .error e
  | .ok segs =>
    match lookupFile fs.files segs with
    | some _ =>
      if hasDirTail key then .error (.Io "not a directory")
      else .ok { fs with files := eraseFile fs.files segs }
    | none =>
      if isDir fs segs then .error (.Io "is a directory")
      else if blockedByFile fs segs then .error (.Io "not a directory")
      else .error (.NotFound key)

/-- The `ApiError` enum of `crates/filestorage/src/main.rs`. -/
inductive ApiError where
  | BadRequest (msg : String)
  | NotFound (key : String)
  | Internal (msg : String)
deriving DecidableEq, Repr

/-- `impl From<StorageError> for ApiError`. -/
def apiErrorOfStorage : StorageError → ApiError
  | .InvalidKey msg => .BadRequest msg
  | .NotFound key => .NotFound key
  | .Io err => .Internal ("storage I/O error: " ++ err)

/-- The body of an HTTP response: empty, raw object bytes, or the
JSON serialization of `ErrorBody` with the given `error` string. -/
inductive ResponseBody where
  | empty
  | bytes (bs : Bytes)
  | jsonError (msg : String)
deriving DecidableEq, Repr

/-- An HTTP response as the facade builds it: status code, body, and
the two headers the handlers set explicitly. -/
structure HttpResponse where
  status : Nat
  body : ResponseBody
  contentType : Option String
  contentLength : Option Nat
deriving DecidableEq, Repr

/-- `impl IntoResponse for ApiError`: status code plus a JSON error
body; `axum::Json` sets the `application/json` content type. -/
def intoResponse : ApiError → HttpResponse
  | .BadRequest msg => ⟨400, .jsonError msg, some "application/json", none⟩
  | .NotFound key =>
      ⟨404, .jsonError ("object `" ++ key ++ "` not found"),
        some "application/json", none⟩
  | .Internal msg => ⟨500, .jsonError msg, some "application/json", none⟩

/-- `ensure_key_present` of the facade: reject the empty key at the
HTTP layer before calling the engine. -/
def ensure_key_present (key : String) : Except ApiError Unit :=
  if key = "" then .error (.BadRequest "object key cannot be empty")
  else .ok ()

/-- The `put_object` handler: guard the key, call `put`, respond
`201 Created` with empty body on success, translate errors. -/
def put_object (fs : FS) (key : String) (body : Bytes) : HttpResponse × FS :=
  match ensure_key_present key with
  | .error e => (intoResponse e, fs)
  | .ok _ =>
    match FileStorage.put fs key body with
    | .error e => (intoResponse (apiErrorOfStorage e), fs)
    | .ok fs1 => (⟨201, .empty, none, none⟩, fs1)

/-- The `get_object` handler: guard the key, call `get`, respond
`200 OK` with the object bytes, the octet-stream content type and the
byte count as content length on success, translate errors. -/
def get_object (fs : FS) (key : String) : HttpResponse :=
  match ensure_key_present key with
  | .error e => intoResponse e
  | .ok _ =>
    match FileStorage.get fs key with
    | .error e => intoResponse (apiErrorOfStorage e)
    | .ok bs => ⟨200, .bytes bs, some "application/octet-stream", some bs.length⟩

/-- The `delete_object` handler: guard the key, call `delete`, respond
`204 No Content` on success, translate errors. -/
def delete_object (fs : FS) (key : String) : HttpResponse × FS :=
  match ensure_key_present key with
  | .error e => (intoResponse e, fs)
  | .ok _ =>
    match FileStorage.delete fs key with
    | .error e => (intoResponse (apiErrorOfStorage e), fs)
    | .ok fs1 => (⟨204, .empty, none, none⟩, fs1)

/-! Helper lemmas about the file map, path prefixes and validation. -/

theorem lookupFile_insertFile (l : List (FsPath × Bytes)) (p : FsPath) (d : Bytes) :
    lookupFile (insertFile l p d) p = some d := by
  simp [insertFile, lookupFile]

theorem lookupFile_eraseFile_self (l : List (FsPath × Bytes)) (p : FsPath) :
    lookupFile (eraseFile l p) p = none := by
  induction l with
  | nil => simp [eraseFile, lookupFile]
  | cons e rest ih =>
    by_cases h : e.1 = p
    · simpa [eraseFile, h] using ih
    · simp [eraseFile, lookupFile, h, ih]

theorem lookupFile_eraseFile_ne (l : List (FsPath × Bytes)) (p q : FsPath)
    (h : q ≠ p) : lookupFile (eraseFile l p) q = lookupFile l q := by
  induction l with
  | nil => simp [eraseFile]
  | cons e rest ih =>
    have hpq : p ≠ q := fun hpq => h hpq.symm
    by_cases he : e.1 = p
    · simp [eraseFile, lookupFile, he, hpq, ih]
    · by_cases hq : e.1 = q
      · simp [eraseFile, lookupFile, he, hq, h]
      · simp [eraseFile, lookupFile, he, hq, ih]

theorem eraseFile_eraseFile (l : List (FsPath × Bytes)) (p : FsPath) :
    eraseFile (eraseFile l p) p = eraseFile l p := by
  induction l with
  | nil => simp [eraseFile]
  | cons e rest ih =>
    by_cases h : e.1 = p
    · simp [eraseFile, h, ih]
    · simp [eraseFile, h, ih]

theorem eraseFile_insertFile (l : List (FsPath × Bytes)) (p : FsPath) (d : Bytes) :
    eraseFile (insertFile l p d) p = eraseFile l p := by
  simp [insertFile, eraseFile, eraseFile_eraseFile]

theorem length_le_of_mem_prefixesOf (p q : FsPath) (h : q ∈ prefixesOf p) :
    q.length ≤ p.length := by
  induction p generalizing q with
  | nil => simp [prefixesOf] at h; simp [h]
  | cons s rest ih =>
    simp only [prefixesOf, List.mem_cons, List.mem_map] at h
    rcases h with h | ⟨q1, hq1, hq⟩
    · simp [h]
    · subst hq; simpa using Nat.succ_le_succ (ih q1 hq1)

theorem validate_key_ok_iff (key : String) :
    validate_key key = .ok () ↔
      key ≠ "" ∧ isAbsolute key = false ∧ (componentsOf key).all isNormal = true := by
  unfold validate_key
  split_ifs with h1 h2 h3
  · constructor
    · intro h; cases h
    · intro h; exact absurd h1 h.1
  · constructor
    · intro h; cases h
    · intro h; rw [h.2.1] at h2; cases h2
  · constructor
    · intro _; exact ⟨h1, Bool.eq_false_iff.mpr h2, h3⟩
    · intro _; rfl
  · constructor
    · intro h; cases h
    · intro h; exact absurd h.2.2 h3

theorem validate_key_error_shape (key : String) (m : String)
    (h : validate_key key = .error (.InvalidKey m)) :
    m = "key cannot be empty" ∨
      m = "absolute paths are not allowed (got `" ++ key ++ "`)" ∨
      m = "`" ++ key ++ "` contains unsupported segments" := by
  unfold validate_key at h
  split_ifs at h <;> simp_all

theorem all_normal_eq_map (l : List PathComponent) (h : l.all isNormal = true) :
    l = (l.filterMap normalName).map PathComponent.normal := by
  induction l with
  | nil => simp
  | cons c rest ih =>
    simp only [List.all_cons, Bool.and_eq_true] at h
    cases c with
    | normal s =>
      simp only [List.filterMap_cons, normalName, List.map_cons, List.cons.injEq]
      exact ⟨trivial, ih h.2⟩
    | curDir => simp [isNormal] at h
    | parentDir => simp [isNormal] at h

theorem splitSlash_head_ne_nil (cs : List Char) (acc : List Char) (h : acc ≠ []) :
    ∃ s, (splitSlash acc cs).head? = some s ∧ s ≠ "" := by
  induction cs generalizing acc with
  | nil =>
    refine ⟨String.mk acc.reverse, rfl, ?_⟩
    simpa [String.ext_iff] using h
  | cons c cs ih =>
    by_cases hc : c = '/'
    · refine ⟨String.mk acc.reverse, by simp [splitSlash, hc], ?_⟩
      simpa [String.ext_iff] using h
    · simpa [splitSlash, hc] using ih (c :: acc) (by simp)

theorem rawSegs_head_of_valid (key : String) (hne : key ≠ "")
    (habs : isAbsolute key = false) :
    ∃ s, (rawSegs key).head? = some s ∧ s ≠ "" := by
  unfold rawSegs
  cases hd : key.data with
  | nil =>
    exact absurd (String.ext hd) hne
  | cons c cs =>
    have hc : c ≠ '/' := by
      intro h
      rw [h] at hd
      simp [isAbsolute, hd] at habs
    simpa [splitSlash, hc] using splitSlash_head_ne_nil cs [c] (by simp)

theorem segsOf_ne_nil (key : String) (h : validate_key key = .ok ()) :
    segsOf key ≠ [] := by
  rcases (validate_key_ok_iff key).mp h with ⟨hne, habs, hall⟩
  rcases rawSegs_head_of_valid key hne habs with ⟨s, hhead, hs⟩
  obtain ⟨rest, hsegs⟩ : ∃ rest, rawSegs key = s :: rest := by
    cases h0 : rawSegs key with
    | nil => rw [h0] at hhead; cases hhead
    | cons a l =>
      rw [h0] at hhead
      simp only [List.head?_cons, Option.some.injEq] at hhead
      exact ⟨l, by rw [hhead]⟩
  by_cases hdot : s = "."
  · exfalso
    have : componentsOf key = .curDir :: (rawSegs key).filterMap classify := by
      unfold componentsOf
      rw [hsegs, hdot]
      simp
    rw [this] at hall
    simp [isNormal] at hall
  · have hbody : componentsOf key = (rawSegs key).filterMap classify := by
      unfold componentsOf
      rw [hsegs]
      simp [hdot]
    have hmem : classify s ∈ (componentsOf key).map some ∨ classify s = none := by
      rcases hcl : classify s with _ | c
      · exact Or.inr rfl
      · refine Or.inl ?_
        rw [hbody, hsegs]
        simp [List.filterMap_cons, hcl]
    have hcl : ∃ c, classify s = some c := by
      unfold classify
      simp only [hs, hdot, if_false]
      by_cases h2 : s = ".." <;> simp [h2]
    rcases hcl with ⟨c, hc⟩
    have hcmem : c ∈ componentsOf key := by
      rcases hmem with hm | hm
      · rcases List.mem_map.mp (hc ▸ hm) with ⟨c1, hc1, hc1e⟩
        exact (Option.some.inj hc1e) ▸ hc1
      · rw [hc] at hm; cases hm
    have hnorm : isNormal c = true := by
      have := List.all_eq_true.mp hall c hcmem
      exact this
    cases c with
    | normal t =>
      intro hempty
      have hmap := all_normal_eq_map (componentsOf key) hall
      have hsegsOf : (componentsOf key).filterMap normalName = segsOf key := rfl
      rw [hsegsOf, hempty] at hmap
      simp only [List.map_nil] at hmap
      rw [hmap] at hcmem
      cases hcmem
    | curDir => simp [isNormal] at hnorm
    | parentDir => simp [isNormal] at hnorm

theorem segsOf_plain (key : String) (_h : validate_key key = .ok ()) :
    ∀ s ∈ segsOf key, s ≠ "" ∧ s ≠ "." ∧ s ≠ ".." := by
  intro s hs
  rcases List.mem_filterMap.mp hs with ⟨c, hc, hcs⟩
  have hcnorm : c = PathComponent.normal s := by
    cases c with
    | curDir => simp [normalName] at hcs
    | parentDir => simp [normalName] at hcs
    | normal t => simp only [normalName, Option.some.injEq] at hcs; rw [hcs]
  subst hcnorm
  have hbodymem : PathComponent.normal s ∈ (rawSegs key).filterMap classify := by
    unfold componentsOf at hc
    dsimp only at hc
    split at hc
    · rcases List.mem_cons.mp hc with h1 | h1
      · cases h1
      · exact h1
    · exact hc
  rcases List.mem_filterMap.mp hbodymem with ⟨r, _, hr⟩
  unfold classify at hr
  split_ifs at hr with h1 h2 h3
  · cases hr
  · have hrs : r = s := PathComponent.normal.inj (Option.some.inj hr)
    subst hrs
    exact ⟨h1, h2, h3⟩

theorem path_for_ok (key : String) (h : validate_key key = .ok ()) :
    path_for key = .ok (segsOf key) := by
  unfold path_for
  rw [h]

theorem path_for_error (key : String) (e : StorageError)
    (h : validate_key key = .error e) : path_for key = .error e := by
  unfold path_for
  rw [h]

theorem path_for_ok_inv (key : String) (segs : FsPath)
    (h : path_for key = .ok segs) :
    validate_key key = .ok () ∧ segs = segsOf key := by
  unfold path_for at h
  split at h
  · cases h
  · rename_i u hv
    cases u
    exact ⟨hv, (Except.ok.inj h).symm⟩

theorem mem_prefixesOf_dropLast_ne (p q : FsPath) (hp : p ≠ [])
    (h : q ∈ prefixesOf p.dropLast) : q ≠ p := by
  intro he
  subst he
  have h1 := length_le_of_mem_prefixesOf _ _ h
  rw [List.length_dropLast] at h1
  have h2 : 0 < q.length := List.length_pos.mpr hp
  omega

theorem validate_error_invalid (key : String) (e : StorageError)
    (h : validate_key key = .error e) : ∃ m, e = .InvalidKey m := by
  unfold validate_key at h
  split_ifs at h
  · exact ⟨_, (Except.error.inj h).symm⟩
  · exact ⟨_, (Except.error.inj h).symm⟩
  · exact ⟨_, (Except.error.inj h).symm⟩

theorem ops_error_of_validate_error (key : String) (e : StorageError)
    (h : validate_key key = .error e) :
    (∀ fs d, FileStorage.put fs key d = .error e) ∧
    (∀ fs, FileStorage.get fs key = .error e) ∧
    (∀ fs, FileStorage.delete fs key = .error e) := by
  have hp := path_for_error key e h
  refine ⟨fun fs d => ?_, fun fs => ?_, fun fs => ?_⟩
  · unfold FileStorage.put
    rw [hp]
  · unfold FileStorage.get
    rw [hp]
  · unfold FileStorage.delete
    rw [hp]

theorem validate_error_of_parent_seg (key : String) (h : ".." ∈ rawSegs key) :
    ∃ m, validate_key key = .error (.InvalidKey m) := by
  cases hv : validate_key key with
  | error e =>
    rcases validate_error_invalid key e hv with ⟨m, hm⟩
    subst hm
    exact ⟨m, rfl⟩
  | ok u =>
    exfalso
    cases u
    rcases (validate_key_ok_iff key).mp hv with ⟨-, -, hall⟩
    have hmem : PathComponent.parentDir ∈ (rawSegs key).filterMap classify :=
      List.mem_filterMap.mpr ⟨"..", h, rfl⟩
    have hcomp : PathComponent.parentDir ∈ componentsOf key := by
      unfold componentsOf
      dsimp only
      split
      · exact List.mem_cons_of_mem _ hmem
      · exact hmem
    have := List.all_eq_true.mp hall _ hcomp
    simp [isNormal] at this

theorem get_after_put (fs fs1 : FS) (key : String) (d : Bytes)
    (h : FileStorage.put fs key d = .ok fs1) :
    FileStorage.get fs1 key = .ok d := by
  unfold FileStorage.put at h
  split at h
  · cases h
  · rename_i segs hp
    split at h
    · cases h
    · rename_i fsc hc
      split at h
      · cases h
      · rename_i hdeg
        split at h
        · cases h
        · have hfs : fs1 = { fsc with files := insertFile fsc.files segs d } :=
            (Except.ok.inj h).symm
          unfold FileStorage.get
          rw [hp]
          simp [hfs, lookupFile_insertFile, hdeg]

theorem put_init_ok (key : String) (d : Bytes)
    (hv : validate_key key = .ok ()) (hdeg : hasDirTail key = false) :
    FileStorage.put FS.init key d =
      .ok (FS.mk (insertFile [] (segsOf key) d)
        (prefixesOf (segsOf key).dropLast)) := by
  have hp := path_for_ok key hv
  have hne := segsOf_ne_nil key hv
  unfold FileStorage.put
  rw [hp]
  have hguard : ((prefixesOf (segsOf key).dropLast).any
      (fun q => (lookupFile FS.init.files q).isSome)) = false := by
    simp [FS.init, lookupFile]
  have hc : create_dir_all FS.init (segsOf key).dropLast =
      .ok (FS.mk [] (prefixesOf (segsOf key).dropLast)) := by
    unfold create_dir_all
    rw [if_neg (by simp [hguard])]
    simp [FS.init]
  have hdirf : isDir (FS.mk [] (prefixesOf (segsOf key).dropLast))
      (segsOf key) = false := by
    unfold isDir
    rw [Bool.or_eq_false_iff]
    constructor
    · simpa using hne
    · rw [List.any_eq_false]
      intro q hq
      have hne2 := mem_prefixesOf_dropLast_ne (segsOf key) q hne hq
      simp [hne2]
  simp [hc, hdirf, hdeg]

/-- C1 counterexample: the key `a/` is accepted by validation (its one
component is `Normal("a")`), yet on a fresh root its `put` fails with
an I/O error, because the OS refuses to create a regular file through a
slash-terminated path; `get` then reports the object missing. So the
round trip does not succeed for every validation-accepted key. -/
theorem roundtrip_trailing_slash_counterexample :
    validate_key "a/" = .ok () ∧
    FileStorage.put FS.init "a/" [1] = .error (.Io "cannot open path") ∧
    FileStorage.get FS.init "a/" = .error (.NotFound "a/") :=
  ⟨by decide, by decide, by decide⟩

/-- C1 amended: for every accepted key whose raw form ends in a plain
name segment and every byte sequence `d` (the empty sequence included),
a successful `put(k, d)` followed by `get(k)` with no intervening
operation on `k` returns exactly `d`, and on a fresh engine that `put`
succeeds, so the round trip succeeds; an accepted key ending in a
separator or a `.` segment instead always makes `put` fail with an
`Io` error, so no round trip exists for it. -/
theorem put_get_roundtrip (fs fs1 : FS) (key : String) (d : Bytes) :
    (FileStorage.put fs key d = .ok fs1 →
      FileStorage.get fs1 key = .ok d) ∧
    (validate_key key = .ok () → hasDirTail key = false →
      ∃ fs2, FileStorage.put FS.init key d = .ok fs2 ∧
        FileStorage.get fs2 key = .ok d) ∧
    (validate_key key = .ok () → hasDirTail key = true →
      ∃ m, FileStorage.put fs key d = .error (.Io m)) := by
  refine ⟨get_after_put fs fs1 key d, ?_, ?_⟩
  · intro hv hdeg
    refine ⟨_, put_init_ok key d hv hdeg, ?_⟩
    exact get_after_put _ _ _ _ (put_init_ok key d hv hdeg)
  · intro hv hdeg
    have hp := path_for_ok key hv
    unfold FileStorage.put
    rw [hp]
    cases hc : create_dir_all fs (segsOf key).dropLast with
    | error e =>
      have hio : ∃ m, e = .Io m := by
        unfold create_dir_all at hc
        split at hc
        · exact ⟨_, (Except.error.inj hc).symm⟩
        · cases hc
      obtain ⟨m, hm⟩ := hio
      subst hm
      exact ⟨m, by simp [hc]⟩
    | ok fsc =>
      exact ⟨"cannot open path", by simp [hc, hdeg]⟩

/-- C1 witness: the round trip evaluated on a fresh root at
`sample.txt` and at `empty-object` with the empty byte sequence, and
the always-failing `put` at the dir-tailed key `b/`. -/
theorem put_get_roundtrip_witness :
    FileStorage.get (FS.mk [(["sample.txt"], [])] [[]]) "sample.txt" = .ok [] ∧
    (∃ fs2, FileStorage.put FS.init "empty-object" [] = .ok fs2 ∧
      FileStorage.get fs2 "empty-object" = .ok []) ∧
    (∃ m, FileStorage.put FS.init "b/" [1] = .error (.Io m)) :=
  ⟨(put_get_roundtrip FS.init (FS.mk [(["sample.txt"], [])] [[]])
      "sample.txt" []).1 (by decide),
   (put_get_roundtrip FS.init FS.init "empty-object" []).2.1
      (by decide) (by decide),
   (put_get_roundtrip FS.init FS.init "b/" [1]).2.2
      (by decide) (by decide)⟩

/-- C5: on a freshly initialized root, `get` and `delete` on any valid
but never-written key fail with `NotFound` carrying exactly the
requested key, not with `Io` or `InvalidKey`. -/
theorem fresh_root_get_delete_not_found (key : String)
    (h : validate_key key = .ok ()) :
    FileStorage.get FS.init key = .error (.NotFound key) ∧
    FileStorage.delete FS.init key = .error (.NotFound key) := by
  have hp := path_for_ok key h
  have hne := segsOf_ne_nil key h
  constructor
  · unfold FileStorage.get
    rw [hp]
    simp [FS.init, lookupFile, isDir, blockedByFile, hne]
  · unfold FileStorage.delete
    rw [hp]
    simp [FS.init, lookupFile, isDir, blockedByFile, hne]

/-- C5 witness: both operations evaluated on the fresh root at the key
`never-written`. -/
theorem fresh_root_get_delete_not_found_witness :
    FileStorage.get FS.init "never-written" =
      .error (.NotFound "never-written") ∧
    FileStorage.delete FS.init "never-written" =
      .error (.NotFound "never-written") :=
  fresh_root_get_delete_not_found "never-written" (by decide)

/-- C6: after a successful `put(k, d)` and a successful `delete(k)`, a
subsequent `get(k)` fails with `NotFound(k)`: delete removes the object
stored under `k`. -/
theorem delete_removes (fs fs1 fs2 : FS) (key : String) (d : Bytes)
    (hput : FileStorage.put fs key d = .ok fs1)
    (hdel : FileStorage.delete fs1 key = .ok fs2) :
    FileStorage.get fs2 key = .error (.NotFound key) := by
  unfold FileStorage.put at hput
  split at hput
  · cases hput
  · rename_i segs hp
    split at hput
    · cases hput
    · rename_i fsc hc
      split at hput
      · cases hput
      · split at hput
        · cases hput
        · rename_i hd
          have hfs1 : fs1 = { fsc with files := insertFile fsc.files segs d } :=
            (Except.ok.inj hput).symm
          unfold create_dir_all at hc
          split at hc
          · cases hc
          · rename_i hguard
            have hfsc : fsc =
                { fs with dirs := prefixesOf segs.dropLast ++ fs.dirs } :=
              (Except.ok.inj hc).symm
            obtain ⟨hv, hsegs⟩ := path_for_ok_inv key segs hp
            have hne : segs ≠ [] := by
              rw [hsegs]
              exact segsOf_ne_nil key hv
            unfold FileStorage.delete at hdel
            split at hdel
            · rename_i e hpe
              rw [hp] at hpe
              cases hpe
            · rename_i segs2 hp2
              rw [hp] at hp2
              have hseq : segs = segs2 := Except.ok.inj hp2
              subst hseq
              split at hdel
              · rename_i d2 hl2
                split at hdel
                · cases hdel
                · have hfs2 : fs2 = { fs1 with files := eraseFile fs1.files segs } :=
                    (Except.ok.inj hdel).symm
                  have hlook : lookupFile fs2.files segs = none := by
                    rw [hfs2]
                    exact lookupFile_eraseFile_self _ _
                  have hdirfsc : isDir fsc segs = false := by
                    cases hb : isDir fsc segs
                    · rfl
                    · exact absurd hb hd
                  have hdir : isDir fs2 segs = false := by
                    unfold isDir at hdirfsc ⊢
                    rw [hfs2, hfs1]
                    exact hdirfsc
                  have hguardf :
                      ((prefixesOf segs.dropLast).any
                        (fun q => (lookupFile fs.files q).isSome)) = false :=
                    Bool.eq_false_iff.mpr hguard
                  have hblocked : blockedByFile fs2 segs = false := by
                    unfold blockedByFile
                    rw [List.any_eq_false]
                    intro q hq
                    have hqne : q ≠ segs := mem_prefixesOf_dropLast_ne segs q hne hq
                    have hfiles2 : fs2.files = eraseFile fs.files segs := by
                      rw [hfs2, hfs1, hfsc]
                      exact eraseFile_insertFile _ _ _
                    rw [hfiles2, lookupFile_eraseFile_ne _ _ _ hqne]
                    have := List.any_eq_false.mp hguardf q hq
                    simpa using this
                  unfold FileStorage.get
                  rw [hp]
                  simp [hlook, hdir, hblocked]
              · split at hdel
                · cases hdel
                · split at hdel
                  · cases hdel
                  · cases hdel

/-- C6 witness: the sequence evaluated on a fresh root at the key
`sample.txt` with payload `[5]`. -/
theorem delete_removes_witness :
    FileStorage.get (FS.mk [] [[]]) "sample.txt" =
      .error (.NotFound "sample.txt") :=
  delete_removes FS.init (FS.mk [(["sample.txt"], [5])] [[]]) (FS.mk [] [[]])
    "sample.txt" [5] (by decide) (by decide)

/-- C7: key validation runs before any filesystem access and rejects on
the first violation in the stated order; on every invalid key all three
operations return the `InvalidKey` error of validation, on any
filesystem state (so no filesystem call is made and the stored state is
untouched). -/
theorem validation_precedes_filesystem (key : String) (e : StorageError)
    (h : validate_key key = .error e) :
    (∀ fs d, FileStorage.put fs key d = .error e) ∧
    (∀ fs, FileStorage.get fs key = .error e) ∧
    (∀ fs, FileStorage.delete fs key = .error e) ∧
    (∃ m, e = .InvalidKey m) ∧
    (key = "" → e = .InvalidKey "key cannot be empty") ∧
    (key ≠ "" → isAbsolute key = true →
      e = .InvalidKey ("absolute paths are not allowed (got `" ++ key ++ "`)")) := by
  obtain ⟨hput, hget, hdel⟩ := ops_error_of_validate_error key e h
  refine ⟨hput, hget, hdel, validate_error_invalid key e h, ?_, ?_⟩
  · intro hk
    have hv : validate_key key = .error (.InvalidKey "key cannot be empty") := by
      unfold validate_key
      rw [if_pos hk]
    rw [hv] at h
    exact (Except.error.inj h).symm
  · intro hk habs
    have hv : validate_key key =
        .error (.InvalidKey ("absolute paths are not allowed (got `" ++ key ++ "`)")) := by
      unfold validate_key
      rw [if_neg hk, if_pos habs]
    rw [hv] at h
    exact (Except.error.inj h).symm

/-- C7 witness: the empty key evaluated against all three operations on
the fresh root; the first check fires and no state is consulted. -/
theorem validation_precedes_filesystem_witness :
    FileStorage.put FS.init "" [7] = .error (.InvalidKey "key cannot be empty") ∧
    FileStorage.get FS.init "" = .error (.InvalidKey "key cannot be empty") ∧
    FileStorage.delete FS.init "" = .error (.InvalidKey "key cannot be empty") :=
  ⟨(validation_precedes_filesystem "" (.InvalidKey "key cannot be empty")
      (by decide)).1 FS.init [7],
   (validation_precedes_filesystem "" (.InvalidKey "key cannot be empty")
      (by decide)).2.1 FS.init,
   (validation_precedes_filesystem "" (.InvalidKey "key cannot be empty")
      (by decide)).2.2.1 FS.init⟩

/-- C2: every key with a parent-reference segment makes `put`, `get`
and `delete` fail with `InvalidKey`; and every key that validation
accepts resolves to the root joined with the key's plain segments, so
no operation touches a file outside the storage root. -/
theorem traversal_rejected (key : String) (fs : FS) (d : Bytes) (root : FsPath) :
    (".." ∈ rawSegs key →
      ∃ m, FileStorage.put fs key d = .error (.InvalidKey m) ∧
        FileStorage.get fs key = .error (.InvalidKey m) ∧
        FileStorage.delete fs key = .error (.InvalidKey m)) ∧
    (validate_key key = .ok () →
      path_for key = .ok (segsOf key) ∧
      resolvePath root key = root ++ segsOf key ∧
      ∀ s ∈ segsOf key, s ≠ "" ∧ s ≠ "." ∧ s ≠ "..") := by
  constructor
  · intro hseg
    obtain ⟨m, hm⟩ := validate_error_of_parent_seg key hseg
    obtain ⟨hput, hget, hdel⟩ :=
      ops_error_of_validate_error key (.InvalidKey m) hm
    exact ⟨m, hput fs d, hget fs, hdel fs⟩
  · intro hv
    exact ⟨path_for_ok key hv, rfl, segsOf_plain key hv⟩

/-- C2 witness: the traversal key `../escape` rejected on the fresh
root, and the valid key `a/b` resolved inside the root. -/
theorem traversal_rejected_witness :
    (∃ m, FileStorage.put FS.init "../escape" [0] = .error (.InvalidKey m) ∧
      FileStorage.get FS.init "../escape" = .error (.InvalidKey m) ∧
      FileStorage.delete FS.init "../escape" = .error (.InvalidKey m)) ∧
    (path_for "a/b" = .ok (segsOf "a/b") ∧
      resolvePath ["store"] "a/b" = ["store"] ++ segsOf "a/b" ∧
      ∀ s ∈ segsOf "a/b", s ≠ "" ∧ s ≠ "." ∧ s ≠ "..") :=
  ⟨(traversal_rejected "../escape" FS.init [0] ["store"]).1 (by decide),
   (traversal_rejected "a/b" FS.init [0] ["store"]).2 (by decide)⟩

theorem rawSegs_head_absolute (key : String) (h : isAbsolute key = true) :
    (rawSegs key).head? = some "" := by
  unfold isAbsolute at h
  unfold rawSegs
  cases hd : key.data with
  | nil => rw [hd] at h; cases h
  | cons c cs =>
    rw [hd] at h
    have h2 : c = '/' := by simpa using of_decide_eq_true h
    subst h2
    rfl

/-- C3 counterexample: `a/./b` and `a//b` are accepted by validation,
and `get`/`put` on them behave as on the normalized key, instead of
failing with `InvalidKey` as the claim states. -/
theorem dot_segments_accepted_counterexample :
    validate_key "a/./b" = .ok () ∧
    validate_key "a//b" = .ok () ∧
    FileStorage.get FS.init "a/./b" = .error (.NotFound "a/./b") ∧
    FileStorage.put FS.init "a//b" [1] =
      .ok (FS.mk [(["a", "b"], [1])] [[], ["a"]]) :=
  ⟨by decide, by decide, by decide, by decide⟩

/-- C3 amended: a key is rejected for a current-directory segment only
when that segment survives path parsing, namely when it is the leading
segment; the reason string interpolates the key. Interior `.` segments
and empty segments from doubled separators are normalized away, so such
keys are accepted and resolve to the same path as their normalized
form. -/
theorem leading_dot_rejected (key : String)
    (h : (rawSegs key).head? = some ".") :
    validate_key key =
      .error (.InvalidKey ("`" ++ key ++ "` contains unsupported segments")) ∧
    validate_key "a/./b" = .ok () ∧ segsOf "a/./b" = segsOf "a/b" ∧
    validate_key "a//b" = .ok () ∧ segsOf "a//b" = segsOf "a/b" := by
  refine ⟨?_, by decide, by decide, by decide, by decide⟩
  have hne : key ≠ "" := by
    intro hk
    subst hk
    exact absurd h (by decide)
  have habs : isAbsolute key = false := by
    cases hb : isAbsolute key
    · rfl
    · have hz := rawSegs_head_absolute key hb
      rw [hz] at h
      exact absurd (Option.some.inj h) (by decide)
  have hcomp : (componentsOf key).all isNormal = false := by
    unfold componentsOf
    dsimp only
    rw [if_pos h]
    simp [isNormal]
  unfold validate_key
  rw [if_neg hne, if_neg (by simp [habs]), if_neg (by simp [hcomp])]

/-- C3 amended witness: the leading-dot key `./a` evaluated through
validation, next to the accepted normalized keys. -/
theorem leading_dot_rejected_witness :
    validate_key "./a" =
      .error (.InvalidKey ("`" ++ "./a" ++ "` contains unsupported segments")) ∧
    validate_key "a/./b" = .ok () ∧ segsOf "a/./b" = segsOf "a/b" ∧
    validate_key "a//b" = .ok () ∧ segsOf "a//b" = segsOf "a/b" :=
  leading_dot_rejected "./a" (by decide)

/-- C4 counterexample: the absolute-path and unsupported-segment reason
strings produced by the code interpolate the offending key, so they are
not the bare strings the claim fixes. -/
theorem reason_strings_counterexample :
    validate_key "/x" =
      .error (.InvalidKey "absolute paths are not allowed (got `/x`)") ∧
    validate_key "/x" ≠ .error (.InvalidKey "absolute paths are not allowed") ∧
    validate_key "a/../b" =
      .error (.InvalidKey "`a/../b` contains unsupported segments") ∧
    validate_key "a/../b" ≠ .error (.InvalidKey "contains unsupported segments") ∧
    validate_key "" = .error (.InvalidKey "key cannot be empty") :=
  ⟨by decide, by decide, by decide, by decide, by decide⟩

/-- C4 amended: the empty-key reason is exactly `key cannot be empty`;
the absolute-path reason is exactly
``absolute paths are not allowed (got `<key>`)``; the unsupported
segment reason is exactly ``<key>` contains unsupported segments`` with
the key interpolated; and no other reason string occurs. -/
theorem invalid_key_reasons (key : String) :
    (key = "" → validate_key key = .error (.InvalidKey "key cannot be empty")) ∧
    (key ≠ "" → isAbsolute key = true →
      validate_key key =
        .error (.InvalidKey ("absolute paths are not allowed (got `" ++ key ++ "`)"))) ∧
    (key ≠ "" → isAbsolute key = false → (componentsOf key).all isNormal = false →
      validate_key key =
        .error (.InvalidKey ("`" ++ key ++ "` contains unsupported segments"))) ∧
    ∀ m, validate_key key = .error (.InvalidKey m) →
      m = "key cannot be empty" ∨
        m = "absolute paths are not allowed (got `" ++ key ++ "`)" ∨
        m = "`" ++ key ++ "` contains unsupported segments" := by
  refine ⟨?_, ?_, ?_, fun m hm => validate_key_error_shape key m hm⟩
  · intro hk
    unfold validate_key
    rw [if_pos hk]
  · intro hk habs
    unfold validate_key
    rw [if_neg hk, if_pos habs]
  · intro hk habs hall
    unfold validate_key
    rw [if_neg hk, if_neg (by simp [habs]), if_neg (by simp [hall])]

/-- C4 amended witness: the three reason strings evaluated at `""`,
`/x` and `a/../b`. -/
theorem invalid_key_reasons_witness :
    validate_key "" = .error (.InvalidKey "key cannot be empty") ∧
    validate_key "/x" =
      .error (.InvalidKey ("absolute paths are not allowed (got `" ++ "/x" ++ "`)")) ∧
    validate_key "a/../b" =
      .error (.InvalidKey ("`" ++ "a/../b" ++ "` contains unsupported segments")) :=
  ⟨(invalid_key_reasons "").1 rfl,
   (invalid_key_reasons "/x").2.1 (by decide) (by decide),
   (invalid_key_reasons "a/../b").2.2.1 (by decide) (by decide) (by decide)⟩

theorem put_ok_valid (fs fs1 : FS) (key : String) (d : Bytes)
    (h : FileStorage.put fs key d = .ok fs1) : validate_key key = .ok () := by
  unfold FileStorage.put at h
  split at h
  · cases h
  · rename_i segs hp
    exact (path_for_ok_inv key segs hp).1

theorem get_ok_valid (fs : FS) (key : String) (bs : Bytes)
    (h : FileStorage.get fs key = .ok bs) : validate_key key = .ok () := by
  unfold FileStorage.get at h
  split at h
  · cases h
  · rename_i segs hp
    exact (path_for_ok_inv key segs hp).1

theorem delete_ok_valid (fs fs1 : FS) (key : String)
    (h : FileStorage.delete fs key = .ok fs1) : validate_key key = .ok () := by
  unfold FileStorage.delete at h
  split at h
  · cases h
  · rename_i segs hp
    exact (path_for_ok_inv key segs hp).1

/-- C8: the HTTP facade maps every storage error verbatim, with no
retry or fallback, uniformly for PUT, GET and DELETE: `InvalidKey(msg)`
becomes 400 with the JSON error body carrying `msg`, `NotFound(key)`
becomes 404 with the body naming the key, and an I/O error becomes 500
with the `storage I/O error: ` detail; the engine state is returned
untouched on every error. -/
theorem storage_error_http_mapping (fs : FS) (key : String) (d : Bytes)
    (e : StorageError) (msg k detail : String) :
    intoResponse (apiErrorOfStorage (.InvalidKey msg)) =
      ⟨400, .jsonError msg, some "application/json", none⟩ ∧
    intoResponse (apiErrorOfStorage (.NotFound k)) =
      ⟨404, .jsonError ("object `" ++ k ++ "` not found"),
        some "application/json", none⟩ ∧
    intoResponse (apiErrorOfStorage (.Io detail)) =
      ⟨500, .jsonError ("storage I/O error: " ++ detail),
        some "application/json", none⟩ ∧
    (key ≠ "" → FileStorage.put fs key d = .error e →
      put_object fs key d = (intoResponse (apiErrorOfStorage e), fs)) ∧
    (key ≠ "" → FileStorage.get fs key = .error e →
      get_object fs key = intoResponse (apiErrorOfStorage e)) ∧
    (key ≠ "" → FileStorage.delete fs key = .error e →
      delete_object fs key = (intoResponse (apiErrorOfStorage e), fs)) := by
  refine ⟨rfl, rfl, rfl, ?_, ?_, ?_⟩
  · intro hk he
    unfold put_object ensure_key_present
    rw [if_neg hk]
    simp [he]
  · intro hk he
    unfold get_object ensure_key_present
    rw [if_neg hk]
    simp [he]
  · intro hk he
    unfold delete_object ensure_key_present
    rw [if_neg hk]
    simp [he]

/-- C8 witness: a GET of a missing object on the fresh root translated
into the 404 response. -/
theorem storage_error_http_mapping_witness :
    get_object FS.init "missing" =
      intoResponse (apiErrorOfStorage (.NotFound "missing")) :=
  (storage_error_http_mapping FS.init "missing" [] (.NotFound "missing")
      "m" "k" "d").2.2.2.2.1 (by decide) (by decide)

/-- C9: on success the facade responds 201 Created with empty body for
PUT, 200 OK for GET with the object bytes, the octet-stream content
type and the byte count as content length, and 204 No Content for
DELETE; the empty key is rejected with 400 at the HTTP layer, with the
HTTP-layer message `object key cannot be empty` (not the engine's
`key cannot be empty`, showing the engine is never called) and the
state unchanged. -/
theorem http_success_mapping (fs fs1 : FS) (key : String) (d bs : Bytes) :
    (FileStorage.put fs key d = .ok fs1 →
      put_object fs key d = (⟨201, .empty, none, none⟩, fs1)) ∧
    (FileStorage.get fs key = .ok bs →
      get_object fs key =
        ⟨200, .bytes bs, some "application/octet-stream", some bs.length⟩) ∧
    (FileStorage.delete fs key = .ok fs1 →
      delete_object fs key = (⟨204, .empty, none, none⟩, fs1)) ∧
    put_object fs "" d =
      (⟨400, .jsonError "object key cannot be empty",
        some "application/json", none⟩, fs) ∧
    get_object fs "" =
      ⟨400, .jsonError "object key cannot be empty",
        some "application/json", none⟩ ∧
    delete_object fs "" =
      (⟨400, .jsonError "object key cannot be empty",
        some "application/json", none⟩, fs) := by
  refine ⟨?_, ?_, ?_, rfl, rfl, rfl⟩
  · intro hput
    have hk : key ≠ "" :=
      ((validate_key_ok_iff key).mp (put_ok_valid fs fs1 key d hput)).1
    unfold put_object ensure_key_present
    rw [if_neg hk]
    simp [hput]
  · intro hget
    have hk : key ≠ "" :=
      ((validate_key_ok_iff key).mp (get_ok_valid fs key bs hget)).1
    unfold get_object ensure_key_present
    rw [if_neg hk]
    simp [hget]
  · intro hdel
    have hk : key ≠ "" :=
      ((validate_key_ok_iff key).mp (delete_ok_valid fs fs1 key hdel)).1
    unfold delete_object ensure_key_present
    rw [if_neg hk]
    simp [hdel]

/-- C9 witness: the three success responses evaluated on concrete
states at `sample.txt`, and the empty-key 400 on the fresh root. -/
theorem http_success_mapping_witness :
    put_object FS.init "sample.txt" [9] =
      ((⟨201, .empty, none, none⟩ : HttpResponse),
        FS.mk [(["sample.txt"], [9])] [[]]) ∧
    get_object (FS.mk [(["sample.txt"], [9])] [[]]) "sample.txt" =
      ⟨200, .bytes [9], some "application/octet-stream", some 1⟩ ∧
    delete_object (FS.mk [(["sample.txt"], [9])] [[]]) "sample.txt" =
      ((⟨204, .empty, none, none⟩ : HttpResponse), FS.mk [] [[]]) ∧
    put_object FS.init "" [9] =
      ((⟨400, .jsonError "object key cannot be empty",
        some "application/json", none⟩ : HttpResponse), FS.init) :=
  ⟨(http_success_mapping FS.init (FS.mk [(["sample.txt"], [9])] [[]])
      "sample.txt" [9] []).1 (by decide),
   (http_success_mapping (FS.mk [(["sample.txt"], [9])] [[]]) FS.init
      "sample.txt" [] [9]).2.1 (by decide),
   (http_success_mapping (FS.mk [(["sample.txt"], [9])] [[]]) (FS.mk [] [[]])
      "sample.txt" [] []).2.2.1 (by decide),
   (http_success_mapping FS.init FS.init "x" [9] []).2.2.2.1⟩

/-- C10: when the resolved path of a valid key is an existing directory
and not a file, `get`, `delete` and `put` all fail with an `Io` error,
not with `NotFound` and not with `InvalidKey`. -/
theorem directory_path_io (fs : FS) (key : String)
    (hv : validate_key key = .ok ())
    (hdir : isDir fs (segsOf key) = true)
    (hfile : lookupFile fs.files (segsOf key) = none) :
    (∃ m, FileStorage.get fs key = .error (.Io m)) ∧
    (∃ m, FileStorage.delete fs key = .error (.Io m)) ∧
    ∀ d, ∃ m, FileStorage.put fs key d = .error (.Io m) := by
  have hp := path_for_ok key hv
  refine ⟨⟨"is a directory", ?_⟩, ⟨"is a directory", ?_⟩, ?_⟩
  · unfold FileStorage.get
    rw [hp]
    simp [hfile, hdir]
  · unfold FileStorage.delete
    rw [hp]
    simp [hfile, hdir]
  · intro d
    unfold FileStorage.put
    rw [hp]
    cases hc : create_dir_all fs (segsOf key).dropLast with
    | error e =>
      have hio : ∃ m, e = .Io m := by
        unfold create_dir_all at hc
        split at hc
        · exact ⟨_, (Except.error.inj hc).symm⟩
        · cases hc
      obtain ⟨m, hm⟩ := hio
      subst hm
      exact ⟨m, by simp [hc]⟩
    | ok fsc =>
      by_cases hdeg : hasDirTail key = true
      · exact ⟨"cannot open path", by simp [hc, hdeg]⟩
      · refine ⟨"is a directory", ?_⟩
        have hdirc : isDir fsc (segsOf key) = true := by
          unfold create_dir_all at hc
          split at hc
          · cases hc
          · have hfsc : fsc =
                { fs with dirs := prefixesOf (segsOf key).dropLast ++ fs.dirs } :=
              (Except.ok.inj hc).symm
            unfold isDir at hdir ⊢
            rw [hfsc]
            simp only [Bool.or_eq_true] at hdir ⊢
            rcases hdir with hdir | hdir
            · exact Or.inl hdir
            · refine Or.inr ?_
              rw [List.any_append]
              simp [hdir]
        simp [hc, hdirc, hdeg]

/-- C10 witness: the state after `put("a/b", [1])` evaluated at the key
`a`, whose resolved path is the directory `a`. -/
theorem directory_path_io_witness :
    (∃ m, FileStorage.get (FS.mk [(["a", "b"], [1])] [[], ["a"]]) "a" =
      .error (.Io m)) ∧
    (∃ m, FileStorage.delete (FS.mk [(["a", "b"], [1])] [[], ["a"]]) "a" =
      .error (.Io m)) ∧
    (∃ m, FileStorage.put (FS.mk [(["a", "b"], [1])] [[], ["a"]]) "a" [2] =
      .error (.Io m)) :=
  ⟨(directory_path_io (FS.mk [(["a", "b"], [1])] [[], ["a"]]) "a"
      (by decide) (by decide) (by decide)).1,
   (directory_path_io (FS.mk [(["a", "b"], [1])] [[], ["a"]]) "a"
      (by decide) (by decide) (by decide)).2.1,
   (directory_path_io (FS.mk [(["a", "b"], [1])] [[], ["a"]]) "a"
      (by decide) (by decide) (by decide)).2.2 [2]⟩

end FileStorageSpec
